import Mathlib

/-!
Shallow embedding of `src/main.py`: a proof-of-concept pipeline that splits
an audio track into time segments, fans the segments out to concurrent
long-running speech-recognition operations, and reassembles the per-segment
results into one transcript.  Machine reals are modelled as rationals,
Python exceptions as explicit error values, and the segmentation `while`
loop with explicit fuel.
-/

deriving instance DecidableEq for Except

namespace TranscriptVideo

/-- Python `int(x)` on a number: truncation toward zero. -/
def pyInt (x : ℚ) : ℤ := if 0 ≤ x then ⌊x⌋ else ⌈x⌉

/-- Python exceptions raised by the embedded code. -/
inductive PyErr where
  | typeError
  deriving DecidableEq

/-- A value read with `os.getenv` (`main.py` line 13): a string when the
variable is set, Python `None` otherwise.  The script never converts
`SEGMENT_DIVIDER` to a number. -/
inductive PyEnvValue where
  | pyStr (s : String)
  | pyNone
  deriving DecidableEq

/-- Python `a // b` where `a` is a float and `b` is the raw environment
value: `float.__floordiv__` accepts only numbers and neither `str` nor
`NoneType` defines `__rfloordiv__`, so the floor division raises TypeError
unconditionally. -/
def pyFloorDivEnv (_a : ℚ) (_b : PyEnvValue) : Except PyErr ℚ :=
  .error .typeError

/-- Python `a // b` where the divisor is a nonzero numeric constant. -/
def fdiv (a b : ℚ) : ℚ := ((⌊a / b⌋ : ℤ) : ℚ)

/-- Python `a % b` for nonzero `b`: the floor-based remainder. -/
def pyMod (a b : ℚ) : ℚ := a - b * fdiv a b

/-- Python format `02d`: decimal, zero-padded to width 2. -/
def pad2 (n : ℤ) : String :=
  if 0 ≤ n ∧ n < 10 then "0" ++ toString n else toString n

/-- The start-time label built at `main.py` line 112 from `start_time`:
hours `int(t // 3600)`, minutes `int((t % 3600) // 60)`, seconds
`int(t % 60)`, each rendered with `02d` and joined by colons. -/
def start_time_str (t : ℚ) : String :=
  pad2 (pyInt (fdiv t 3600)) ++ ":" ++ pad2 (pyInt (fdiv (pyMod t 3600) 60))
    ++ ":" ++ pad2 (pyInt (pyMod t 60))

/-- Spec-modelled formula for the same label (spec section 4.1): truncate the
seconds to an integer, then write it as zero-padded HH:MM:SS. -/
def secondsToHMS (s : ℕ) : String :=
  pad2 ((s / 3600 : ℕ) : ℤ) ++ ":" ++ pad2 ((s % 3600 / 60 : ℕ) : ℤ)
    ++ ":" ++ pad2 ((s % 60 : ℕ) : ℤ)

/-- One window produced by an iteration of the segmentation loop in
`split_audio_into_segments` (`main.py` lines 107-154): the 1-based
`segment_index`, the `start_time` and `end_time` in seconds, and the
start label. -/
structure SegmentWindow where
  index : ℕ
  start : ℚ
  stop : ℚ
  label : String
  deriving DecidableEq

/-- The `while start_time < duration` loop of `split_audio_into_segments`
(`main.py` lines 110-154), run on given segment length, with explicit fuel.
`none` means the fuel was exhausted while the Python loop would still be
running. -/
def segLoop : ℕ → ℚ → ℚ → ℚ → ℕ → Option (List SegmentWindow)
  | 0, _, _, _, _ => none
  | fuel + 1, segment_duration, duration, start_time, segment_index =>
    if start_time < duration then
      let end_time := min (start_time + segment_duration) duration
      match segLoop fuel segment_duration duration end_time (segment_index + 1) with
      | none => none
      | some ws =>
          some ({ index := segment_index, start := start_time, stop := end_time,
                  label := start_time_str start_time } :: ws)
    else
      some []

/-- Fuel sufficient for the loop whenever the segment length is at least 1. -/
def planFuel (duration : ℚ) : ℕ := (⌈duration⌉).toNat + 1

/-- `split_audio_into_segments` (`main.py` lines 98-155) with the probed
duration (a float) and the raw `SEGMENT_DIVIDER` environment value as its
effective inputs.  Line 101 computes
`segment_duration = duration // SEGMENT_DIVIDER`; since the divider is the
unconverted `os.getenv` string (or None), that floor division raises
TypeError for every input, so the window loop below it is never reached. -/
def split_audio_into_segments (duration : ℚ) (divider : PyEnvValue) :
    Except PyErr (Option (List SegmentWindow)) :=
  match pyFloorDivEnv duration divider with
  | .error e => .error e
  | .ok segment_duration =>
      .ok (segLoop (planFuel duration) segment_duration duration 0 1)

/-- Invariant of the segmentation loop: starting from `s` with index `idx`,
the produced windows follow the source loop exactly. -/
def goodFrom (L d : ℚ) : ℚ → ℕ → List SegmentWindow → Prop
  | s, _, [] => s = d
  | s, idx, w :: ws =>
      w.index = idx ∧ w.start = s ∧ w.stop = min (s + L) d ∧ s < d ∧
        goodFrom L d w.stop (idx + 1) ws

/-- Audio encodings of the speech API named by the script. -/
inductive AudioEncoding where
  | LINEAR16
  | FLAC
  | MULAW
  deriving DecidableEq

/-- The `speech.RecognitionConfig` constructed in `run_async_transcribe`
(`main.py` lines 165-169). -/
structure RecognitionConfig where
  encoding : AudioEncoding
  language_code : String
  enable_word_time_offsets : Bool
  deriving DecidableEq

/-- `main.py` line 9. -/
def DEFAULT_SPEECH_TO_TEXT_TIMEOUT : ℕ := 3600

/-- The long-running recognition request issued for one segment: its config,
the target uri, and the timeout passed to `operation.result`. -/
structure RecognizeRequest where
  config : RecognitionConfig
  uri : String
  timeout : ℕ
  deriving DecidableEq

/-- `run_async_transcribe` (`main.py` lines 158-175), modelled as the request
it issues paired with the start label it forwards unchanged. -/
def run_async_transcribe (gcs_uri : String) (start_time : String) :
    RecognizeRequest × String :=
  ({ config := { encoding := .LINEAR16, language_code := "fr-FR",
                 enable_word_time_offsets := true },
     uri := gcs_uri,
     timeout := DEFAULT_SPEECH_TO_TEXT_TIMEOUT }, start_time)

/-- Per-segment transcription result: the segment's start label and its
recognized phrases (one per result, `result.alternatives[0].transcript`). -/
structure TranscriptFragment where
  startLabel : String
  phrases : List String
  deriving DecidableEq

/-- The printing loop of `transcript_from_local_file` (`main.py` lines
200-202), as the ordered list of `(start label, phrase)` lines it emits. -/
def printLoop : List TranscriptFragment → List (String × String)
  | [] => []
  | f :: rest => (f.phrases.map (fun p => (f.startLabel, p))) ++ printLoop rest

/-- Spec-modelled assembler (spec section 4.5): flatten each fragment's
phrase list in order, pairing every phrase with its fragment's start label. -/
def assembleSpec (frags : List TranscriptFragment) : List (String × String) :=
  frags.flatMap (fun f => f.phrases.map (fun p => (f.startLabel, p)))

/-- Collect a list of result slots; `none` means some slot was never filled. -/
def allSome {α : Type} : List (Option α) → Option (List α)
  | [] => some []
  | none :: _ => none
  | some a :: rest => (allSome rest).map (fun l => a :: l)

/-- The per-index result slots of `asyncio.gather`: each completion event
(listed in completion order) stores task `i`-s value into slot `i`. -/
def fillSlots {α : Type} (results : List α) : List ℕ → (ℕ → Option α) → (ℕ → Option α)
  | [], s => s
  | i :: rest, s => fillSlots results rest (fun j => if j = i then results[i]? else s j)

/-- `asyncio.gather(*tasks)` over all-successful tasks (`main.py` line 199):
`results` holds the task values in creation order, `order` is the completion
order; gather fills one slot per completion and reads the slots back in task
order. -/
def gatherModel {α : Type} (results : List α) (order : List ℕ) : Option (List α) :=
  allSome ((List.range results.length).map (fillSlots results order (fun _ => none)))

/-- Failure of one transcription task: timeout of `operation.result` or a
remote error. -/
inductive TranscriptionError where
  | timeout
  | remoteError
  deriving DecidableEq

/-- The first task error in completion order. -/
def firstErrIn (results : List (Except TranscriptionError TranscriptFragment)) :
    List ℕ → Option TranscriptionError
  | [] => none
  | i :: rest =>
    match results[i]? with
    | some (Except.error e) => some e
    | _ => firstErrIn results rest

/-- Sequence task outcomes in task order, stopping at the first error. -/
def exceptSeq : List (Except TranscriptionError TranscriptFragment) →
    Except TranscriptionError (List TranscriptFragment)
  | [] => .ok []
  | .error e :: _ => .error e
  | .ok a :: rest => (exceptSeq rest).map (fun l => a :: l)

/-- `asyncio.gather(*tasks)` without `return_exceptions` (`main.py` line 199)
when tasks may fail: the awaiting coroutine re-raises the exception of the
first task that fails in completion order; when none fails, it returns the
task values in task order. -/
def gatherExc (results : List (Except TranscriptionError TranscriptFragment))
    (order : List ℕ) : Except TranscriptionError (List TranscriptFragment) :=
  match firstErrIn results order with
  | some e => .error e
  | none => exceptSeq results

/-- The 1-based positions of the tasks that failed. -/
def failedIndices (results : List (Except TranscriptionError TranscriptFragment)) :
    List ℕ :=
  ((List.range results.length).filter (fun i =>
    match results[i]? with
    | some (Except.error _) => true
    | _ => false)).map (fun i => i + 1)

/-- How the segmentation loop aborts on an external failure (`main.py` lines
119-151): the ffmpeg cut runs under `check=True` so its failure raises, and
a failed upload hits the handler that calls `exit(1)`. -/
inductive RunAbort where
  | processError
  | exitOne
  deriving DecidableEq

/-- The cut-and-upload body of the segmentation loop over planned windows:
per window, run the ffmpeg cut (failure propagates immediately) then the
upload (failure exits); returns the trace of attempted segment indices and
the outcome. -/
def segmentUploadRun (ws : List SegmentWindow) (cutOk uploadOk : ℕ → Bool) :
    List ℕ × Except RunAbort (List SegmentWindow) :=
  match ws with
  | [] => ([], .ok [])
  | w :: rest =>
    if cutOk w.index then
      if uploadOk w.index then
        let r := segmentUploadRun rest cutOk uploadOk
        (w.index :: r.1, r.2.map (fun l => w :: l))
      else ([w.index], .error .exitOne)
    else ([w.index], .error .processError)

/-- Run-level outcome of `transcript_from_local_file`. -/
inductive RunError where
  | abort (e : RunAbort)
  | transcription (e : TranscriptionError)
  deriving DecidableEq

/-- `transcript_from_local_file` after planning (`main.py` lines 192-202):
cut and upload every planned window in order; only when all succeed, fan out
one transcription task per segment and print the assembled lines.  Returns
the trace of attempted segment indices, whether the transcription stage was
reached, and the outcome. -/
def fullRun (ws : List SegmentWindow) (cutOk uploadOk : ℕ → Bool)
    (worker : SegmentWindow → Except TranscriptionError TranscriptFragment)
    (order : List ℕ) : List ℕ × Bool × Except RunError (List (String × String)) :=
  match segmentUploadRun ws cutOk uploadOk with
  | (tr, .error e) => (tr, false, .error (.abort e))
  | (tr, .ok segs) =>
    match gatherExc (segs.map worker) order with
    | .error e => (tr, true, .error (.transcription e))
    | .ok frags => (tr, true, .ok (printLoop frags))

/-! ## Arithmetic facts about the Python floor division and remainder -/

lemma floor_div_natq (t : ℚ) (b : ℕ) (hb : 0 < b) : ⌊t / (b : ℚ)⌋ = ⌊t⌋ / (b : ℤ) := by
  have hbq : (0 : ℚ) < (b : ℚ) := by exact_mod_cast hb
  have hbz : (0 : ℤ) < (b : ℤ) := by exact_mod_cast hb
  rw [Int.floor_eq_iff]
  constructor
  · rw [le_div_iff₀ hbq]
    have e1 := Int.ediv_add_emod ⌊t⌋ (b : ℤ)
    have e2 := Int.emod_nonneg ⌊t⌋ hbz.ne'
    have h1 : (⌊t⌋ / (b : ℤ)) * (b : ℤ) ≤ ⌊t⌋ := by linarith
    have h2 : ((⌊t⌋ / (b : ℤ) : ℤ) : ℚ) * (b : ℚ) ≤ (⌊t⌋ : ℚ) := by exact_mod_cast h1
    have h3 : (⌊t⌋ : ℚ) ≤ t := Int.floor_le t
    linarith
  · rw [div_lt_iff₀ hbq]
    have e1 := Int.ediv_add_emod ⌊t⌋ (b : ℤ)
    have e2 := Int.emod_lt_of_pos ⌊t⌋ hbz
    have h1 : ⌊t⌋ < (⌊t⌋ / (b : ℤ) + 1) * (b : ℤ) := by nlinarith
    have h2 : (⌊t⌋ : ℚ) < ((⌊t⌋ / (b : ℤ) + 1) * (b : ℤ) : ℤ) := by exact_mod_cast h1
    have h3 : t < (⌊t⌋ : ℚ) + 1 := Int.lt_floor_add_one t
    have h4 : (⌊t⌋ : ℚ) + 1 ≤ ((⌊t⌋ / (b : ℤ) + 1) * (b : ℤ) : ℤ) := by
      have := Int.add_one_le_iff.mpr h1
      exact_mod_cast this
    push_cast at h4 ⊢
    linarith

lemma fdiv_eq_ediv (t : ℚ) (b : ℕ) (hb : 0 < b) :
    fdiv t (b : ℚ) = ((⌊t⌋ / (b : ℤ) : ℤ) : ℚ) := by
  rw [fdiv, floor_div_natq t b hb]

lemma pyInt_intCast (z : ℤ) : pyInt ((z : ℤ) : ℚ) = z := by
  rw [pyInt]
  split <;> simp

lemma pyMod_floor (t : ℚ) (b : ℕ) (hb : 0 < b) : ⌊pyMod t (b : ℚ)⌋ = ⌊t⌋ % (b : ℤ) := by
  rw [pyMod, fdiv_eq_ediv t b hb]
  have hcast : (b : ℚ) * ((⌊t⌋ / (b : ℤ) : ℤ) : ℚ) = (((b : ℤ) * (⌊t⌋ / (b : ℤ)) : ℤ) : ℚ) := by
    push_cast
    ring
  rw [hcast, Int.floor_sub_int, Int.emod_def]

lemma pyMod_nonneg (t : ℚ) (b : ℕ) (hb : 0 < b) : 0 ≤ pyMod t (b : ℚ) := by
  have hbq : (0 : ℚ) < (b : ℚ) := by exact_mod_cast hb
  have h := Int.floor_le (t / (b : ℚ))
  rw [pyMod, fdiv]
  have h2 : (b : ℚ) * ((⌊t / (b : ℚ)⌋ : ℤ) : ℚ) ≤ (b : ℚ) * (t / (b : ℚ)) :=
    mul_le_mul_of_nonneg_left h hbq.le
  rw [mul_div_cancel₀ t hbq.ne'] at h2
  linarith

lemma pyInt_pyMod (t : ℚ) (b : ℕ) (hb : 0 < b) : pyInt (pyMod t (b : ℚ)) = ⌊t⌋ % (b : ℤ) := by
  rw [pyInt, if_pos (pyMod_nonneg t b hb), pyMod_floor t b hb]

/-! ## The segmentation loop -/

lemma segLoop_succ (n : ℕ) (L d s : ℚ) (idx : ℕ) :
    segLoop (n + 1) L d s idx =
      if s < d then
        match segLoop n L d (min (s + L) d) (idx + 1) with
        | none => none
        | some ws =>
            some ({ index := idx, start := s, stop := min (s + L) d,
                    label := start_time_str s } :: ws)
      else some [] := rfl

lemma segLoop_good (L d : ℚ) (hL : 1 ≤ L) :
    ∀ (fuel : ℕ) (s : ℚ) (idx : ℕ), 0 ≤ s → s ≤ d → d + 1 - s ≤ (fuel : ℚ) →
      ∃ ws, segLoop fuel L d s idx = some ws ∧ goodFrom L d s idx ws := by
  intro fuel
  induction fuel with
  | zero =>
    intro s idx _ hsd hfuel
    exfalso
    push_cast at hfuel
    linarith
  | succ n ih =>
    intro s idx h0 hsd hfuel
    by_cases hlt : s < d
    · have hse : s < min (s + L) d := lt_min (by linarith) hlt
      have hed : min (s + L) d ≤ d := min_le_right _ _
      have h0e : 0 ≤ min (s + L) d := le_trans h0 hse.le
      have hfu : d + 1 - min (s + L) d ≤ (n : ℚ) := by
        push_cast at hfuel
        rcases le_or_lt (s + L) d with hc | hc
        · rw [min_eq_left hc]
          linarith
        · rw [min_eq_right hc.le]
          have hn : (0 : ℚ) < (n : ℚ) := by linarith
          have hn2 : 0 < n := by exact_mod_cast hn
          have hn3 : (1 : ℚ) ≤ (n : ℚ) := by exact_mod_cast hn2
          linarith
      obtain ⟨ws, hws, hgood⟩ := ih (min (s + L) d) (idx + 1) h0e hed hfu
      refine ⟨{ index := idx, start := s, stop := min (s + L) d,
                label := start_time_str s } :: ws, ?_, ?_⟩
      · rw [segLoop_succ, if_pos hlt, hws]
      · simp only [goodFrom]
        exact ⟨trivial, trivial, trivial, hlt, hgood⟩
    · have hs : s = d := le_antisymm hsd (not_lt.mp hlt)
      refine ⟨[], ?_, ?_⟩
      · rw [segLoop_succ, if_neg hlt]
      · simp only [goodFrom]
        exact hs

lemma goodFrom_ne_nil {L d s : ℚ} {idx : ℕ} {ws : List SegmentWindow}
    (hg : goodFrom L d s idx ws) (hlt : s < d) : ws ≠ [] := by
  cases ws with
  | nil =>
    simp only [goodFrom] at hg
    exact absurd hg (ne_of_lt hlt)
  | cons a rest => simp

lemma goodFrom_bounds (L d : ℚ) (hL : 1 ≤ L) :
    ∀ (ws : List SegmentWindow) (s : ℚ) (idx : ℕ), 0 ≤ s → goodFrom L d s idx ws →
      ∀ w ∈ ws, 0 ≤ w.start ∧ w.start < w.stop ∧ w.stop ≤ d := by
  intro ws
  induction ws with
  | nil =>
    intro s idx _ _ w hw
    exact absurd hw (List.not_mem_nil w)
  | cons a rest ih =>
    intro s idx h0 hg w hw
    simp only [goodFrom] at hg
    obtain ⟨_, hstart, hstop, hsd, hrest⟩ := hg
    have hse : s < min (s + L) d := lt_min (by linarith) hsd
    rcases List.mem_cons.mp hw with rfl | hw2
    · refine ⟨?_, ?_, ?_⟩
      · rw [hstart]; exact h0
      · rw [hstart, hstop]; exact hse
      · rw [hstop]; exact min_le_right _ _
    · have h0e : 0 ≤ a.stop := by
        rw [hstop]; linarith
      exact ih a.stop (idx + 1) h0e hrest w hw2

lemma goodFrom_index :
    ∀ (ws : List SegmentWindow) (L d s : ℚ) (idx : ℕ), goodFrom L d s idx ws →
      ∀ k (hk : k < ws.length), (ws.get ⟨k, hk⟩).index = idx + k := by
  intro ws
  induction ws with
  | nil =>
    intro L d s idx _ k hk
    exact absurd hk (by simp)
  | cons a rest ih =>
    intro L d s idx hg k hk
    simp only [goodFrom] at hg
    obtain ⟨hidx, _, _, _, hrest⟩ := hg
    cases k with
    | zero => simpa using hidx
    | succ k2 =>
      have h2 := ih L d a.stop (idx + 1) hrest k2 (by simpa using hk)
      calc ((a :: rest).get ⟨k2 + 1, hk⟩).index
          = (rest.get ⟨k2, by simpa using hk⟩).index := by rw [List.get_cons_succ]
        _ = idx + 1 + k2 := h2
        _ = idx + (k2 + 1) := by omega

lemma goodFrom_chain :
    ∀ (ws : List SegmentWindow) (L d s : ℚ) (idx : ℕ), goodFrom L d s idx ws →
      ∀ k (hk : k + 1 < ws.length),
        (ws.get ⟨k + 1, hk⟩).start = (ws.get ⟨k, Nat.lt_of_succ_lt hk⟩).stop := by
  intro ws
  induction ws with
  | nil =>
    intro L d s idx _ k hk
    exact absurd hk (by simp)
  | cons a rest ih =>
    intro L d s idx hg k hk
    simp only [goodFrom] at hg
    obtain ⟨_, _, _, _, hrest⟩ := hg
    cases k with
    | zero =>
      cases rest with
      | nil => simp at hk
      | cons b rest2 =>
        simp only [goodFrom] at hrest
        obtain ⟨_, hbstart, _, _, _⟩ := hrest
        simpa using hbstart
    | succ k2 =>
      have h2 := ih L d a.stop (idx + 1) hrest k2 (by simpa using hk)
      simpa using h2

lemma goodFrom_last :
    ∀ (ws : List SegmentWindow) (L d s : ℚ) (idx : ℕ), goodFrom L d s idx ws →
      ∀ h : ws ≠ [], (ws.getLast h).stop = d := by
  intro ws
  induction ws with
  | nil =>
    intro L d s idx _ h
    exact absurd rfl h
  | cons a rest ih =>
    intro L d s idx hg h
    simp only [goodFrom] at hg
    obtain ⟨_, _, _, _, hrest⟩ := hg
    cases rest with
    | nil =>
      simp only [goodFrom] at hrest
      simpa [List.getLast] using hrest
    | cons b rest2 =>
      have h2 := ih L d a.stop (idx + 1) hrest (by simp)
      simpa [List.getLast_cons_cons] using h2

lemma goodFrom_seg_length (L d : ℚ) :
    ∀ (ws : List SegmentWindow) (s : ℚ) (idx : ℕ), goodFrom L d s idx ws →
      ∀ k (hk : k + 1 < ws.length),
        (ws.get ⟨k, Nat.lt_of_succ_lt hk⟩).stop
          - (ws.get ⟨k, Nat.lt_of_succ_lt hk⟩).start = L := by
  intro ws
  induction ws with
  | nil =>
    intro s idx _ k hk
    exact absurd hk (by simp)
  | cons a rest ih =>
    intro s idx hg k hk
    simp only [goodFrom] at hg
    obtain ⟨_, hastart, hastop, hsd, hrest⟩ := hg
    cases k with
    | zero =>
      cases rest with
      | nil => simp at hk
      | cons b rest2 =>
        simp only [goodFrom] at hrest
        obtain ⟨_, _, _, hbd, _⟩ := hrest
        have hstop : a.stop = s + L := by
          rcases le_or_lt (s + L) d with hc | hc
          · rw [hastop]
            exact min_eq_left hc
          · rw [hastop, min_eq_right hc.le] at hbd
            exact absurd hbd (lt_irrefl d)
        simp only [List.get]
        rw [hstop, hastart]
        ring
    | succ k2 =>
      have h2 := ih a.stop (idx + 1) hrest k2 (by simpa using hk)
      simpa using h2

/-! ## Theorems about the claims -/

lemma planFuel_ge (d : ℚ) (hd : 0 < d) : d + 1 ≤ ((planFuel d : ℕ) : ℚ) := by
  have h0 : 0 ≤ ⌈d⌉ := Int.ceil_nonneg hd.le
  have h2 : ((⌈d⌉.toNat : ℕ) : ℤ) = ⌈d⌉ := Int.toNat_of_nonneg h0
  have h3 : ((⌈d⌉.toNat : ℕ) : ℚ) = ((⌈d⌉ : ℤ) : ℚ) := by exact_mod_cast h2
  have h1 : d ≤ ((⌈d⌉ : ℤ) : ℚ) := Int.le_ceil d
  rw [planFuel]
  push_cast
  rw [h3]
  linarith

lemma segLoop_none_of_nonpos (L d : ℚ) (hL : L ≤ 0) (hd : 0 < d) :
    ∀ (fuel : ℕ) (s : ℚ), s ≤ 0 → ∀ idx : ℕ, segLoop fuel L d s idx = none := by
  intro fuel
  induction fuel with
  | zero =>
    intro s _ idx
    rfl
  | succ n ih =>
    intro s hs idx
    rw [segLoop_succ, if_pos (lt_of_le_of_lt hs hd)]
    have hmin : min (s + L) d = s + L := min_eq_left (by linarith)
    rw [hmin, ih (s + L) (by linarith) (idx + 1)]

/-- C3 (code bug): the source planner never produces any windows — the
divider read at line 13 is the unconverted environment string, so line
101's `duration // SEGMENT_DIVIDER` raises TypeError on every run, before
the window loop (first conjunct, evaluated at the failing input 125 with
divider "2").  The claimed partition is the intended behavior and holds of
the window loop itself (lines 110-154) when fed the segment length
floor(duration/divisor) the claim prescribes: the windows carry ascending
1-based indices, each satisfies 0 ≤ start < stop ≤ duration, the first
begins at 0, the last ends exactly at the duration, and each window starts
where the previous one stops — no gaps, no overlaps. -/
theorem planner_partitions_duration :
    (split_audio_into_segments 125 (PyEnvValue.pyStr "2")
      = .error PyErr.typeError) ∧
    (∀ d q : ℚ, 0 < d → 0 < q → 0 < ⌊d / q⌋ →
      ∃ ws, segLoop (planFuel d) ((⌊d / q⌋ : ℤ) : ℚ) d 0 1 = some ws ∧
        ∃ hne : ws ≠ [],
          (ws.head hne).start = 0 ∧
          (ws.getLast hne).stop = d ∧
          (∀ k (hk : k < ws.length), (ws.get ⟨k, hk⟩).index = k + 1) ∧
          (∀ w ∈ ws, 0 ≤ w.start ∧ w.start < w.stop ∧ w.stop ≤ d) ∧
          (∀ k (hk : k + 1 < ws.length),
            (ws.get ⟨k + 1, hk⟩).start
              = (ws.get ⟨k, Nat.lt_of_succ_lt hk⟩).stop)) := by
  constructor
  · rfl
  · intro d q hd hq hfloor
    have h1 : (1 : ℤ) ≤ ⌊d / q⌋ := by omega
    have hL : 1 ≤ ((⌊d / q⌋ : ℤ) : ℚ) := by exact_mod_cast h1
    have hfuel : d + 1 - 0 ≤ ((planFuel d : ℕ) : ℚ) := by
      have := planFuel_ge d hd
      linarith
    obtain ⟨ws, hws, hgood⟩ :=
      segLoop_good ((⌊d / q⌋ : ℤ) : ℚ) d hL (planFuel d) 0 1 le_rfl hd.le hfuel
    have hne : ws ≠ [] := goodFrom_ne_nil hgood hd
    refine ⟨ws, hws, hne, ?_, ?_, ?_, ?_, ?_⟩
    · cases ws with
      | nil => exact absurd rfl hne
      | cons a rest =>
        simp only [goodFrom] at hgood
        simpa [List.head] using hgood.2.1
    · exact goodFrom_last ws _ d 0 1 hgood hne
    · intro k hk
      have h2 := goodFrom_index ws _ d 0 1 hgood k hk
      rw [h2]
      omega
    · exact fun w hw => goodFrom_bounds _ d hL ws 0 1 le_rfl hgood w hw
    · exact goodFrom_chain ws _ d 0 1 hgood

/-- C3 witness: the loop-level partition statement applied at duration 125,
divisor 2. -/
theorem planner_partitions_duration_witness :
    ∃ ws, segLoop (planFuel 125) ((⌊(125 : ℚ) / 2⌋ : ℤ) : ℚ) 125 0 1 = some ws ∧
      ∃ hne : ws ≠ [],
        (ws.head hne).start = 0 ∧
        (ws.getLast hne).stop = 125 ∧
        (∀ k (hk : k < ws.length), (ws.get ⟨k, hk⟩).index = k + 1) ∧
        (∀ w ∈ ws, 0 ≤ w.start ∧ w.start < w.stop ∧ w.stop ≤ 125) ∧
        (∀ k (hk : k + 1 < ws.length),
          (ws.get ⟨k + 1, hk⟩).start = (ws.get ⟨k, Nat.lt_of_succ_lt hk⟩).stop) :=
  planner_partitions_duration.2 125 2 (by norm_num) (by norm_num) (by norm_num)

set_option maxRecDepth 8000 in
/-- C4 (code bug): the source never computes any segment length — line 101
raises TypeError because the divider is the unconverted environment string
(first conjunct, evaluated at the claim's example duration 125 with divider
"2").  The claimed computation is the intended behavior of line 101 and of
the window loop below it: feeding the loop (lines 110-154) the segment
length floor(125/2) = 62 yields exactly the windows (1, 0, 62),
(2, 62, 124), (3, 124, 125), and in general every non-final window has
exactly length floor(duration/divisor). -/
theorem segment_length_floor_div :
    (split_audio_into_segments 125 (PyEnvValue.pyStr "2")
      = .error PyErr.typeError) ∧
    (segLoop (planFuel 125) ((⌊(125 : ℚ) / 2⌋ : ℤ) : ℚ) 125 0 1 = some
      [⟨1, 0, 62, "00:00:00"⟩, ⟨2, 62, 124, "00:01:02"⟩,
       ⟨3, 124, 125, "00:02:04"⟩]) ∧
    (∀ d q : ℚ, 0 < d → 0 < q → 0 < ⌊d / q⌋ →
      ∀ ws, segLoop (planFuel d) ((⌊d / q⌋ : ℤ) : ℚ) d 0 1 = some ws →
        ∀ k (hk : k + 1 < ws.length),
          (ws.get ⟨k, Nat.lt_of_succ_lt hk⟩).stop
            - (ws.get ⟨k, Nat.lt_of_succ_lt hk⟩).start = ((⌊d / q⌋ : ℤ) : ℚ)) := by
  refine ⟨rfl, ?_, ?_⟩
  · norm_num [planFuel, segLoop, start_time_str, pyInt, fdiv, pyMod, pad2]
    exact ⟨rfl, rfl, rfl⟩
  · intro d q hd hq hfloor ws hws k hk
    have h1 : (1 : ℤ) ≤ ⌊d / q⌋ := by omega
    have hL : 1 ≤ ((⌊d / q⌋ : ℤ) : ℚ) := by exact_mod_cast h1
    have hfuel : d + 1 - 0 ≤ ((planFuel d : ℕ) : ℚ) := by
      have := planFuel_ge d hd
      linarith
    obtain ⟨ws2, hws2, hgood⟩ :=
      segLoop_good ((⌊d / q⌋ : ℤ) : ℚ) d hL (planFuel d) 0 1 le_rfl hd.le hfuel
    rw [hws2] at hws
    simp only [Option.some.injEq] at hws
    subst hws
    exact goodFrom_seg_length _ d ws2 0 1 hgood k hk

/-- C4 witness: the length property applied at duration 125, divisor 2, at
window position 0, using the concrete window list from the theorem. -/
theorem segment_length_floor_div_witness :
    (([⟨1, 0, 62, "00:00:00"⟩, ⟨2, 62, 124, "00:01:02"⟩,
       ⟨3, 124, 125, "00:02:04"⟩] : List SegmentWindow).get ⟨0, by norm_num⟩).stop
      - (([⟨1, 0, 62, "00:00:00"⟩, ⟨2, 62, 124, "00:01:02"⟩,
           ⟨3, 124, 125, "00:02:04"⟩] : List SegmentWindow).get ⟨0, by norm_num⟩).start
      = ((⌊(125 : ℚ) / 2⌋ : ℤ) : ℚ) :=
  segment_length_floor_div.2.2 125 2 (by norm_num) (by norm_num) (by norm_num)
    _ segment_length_floor_div.2.1 0 (by norm_num)

/-- C5 (code bug): at duration 5 with divider "100" the source does not
fail with DegenerateSegmentation — it raises TypeError at line 101, before
any loop runs, because the divider is the unconverted environment string
(first conjunct).  Moreover no zero-length check exists anywhere: had line
101 computed floor(5/100) = 0 as the claim assumes, the window loop (lines
110-154) fed segment length 0 never terminates — every amount of fuel is
exhausted (second conjunct) — rather than reporting the degenerate
configuration. -/
theorem degenerate_segmentation_never_terminates :
    split_audio_into_segments 5 (PyEnvValue.pyStr "100")
      = .error PyErr.typeError ∧
    ∀ fuel : ℕ, segLoop fuel 0 5 0 1 = none := by
  constructor
  · rfl
  · intro fuel
    exact segLoop_none_of_nonpos 0 5 le_rfl (by norm_num) fuel 0 le_rfl 1

/-- C6 counterexample: on inputs with duration ≤ 0 or a nonpositive
divisor, planning fails with TypeError — the line-101 floor division of a
float by the unconverted environment string — which is a different error
than the claimed InvalidConfiguration; the same happens when the variable
is unset. -/
theorem no_invalid_configuration_failure :
    split_audio_into_segments 0 (PyEnvValue.pyStr "2") = .error PyErr.typeError ∧
    split_audio_into_segments 5 (PyEnvValue.pyStr "0") = .error PyErr.typeError ∧
    split_audio_into_segments 5 (PyEnvValue.pyStr "-3") = .error PyErr.typeError ∧
    split_audio_into_segments (-3) PyEnvValue.pyNone = .error PyErr.typeError :=
  ⟨rfl, rfl, rfl, rfl⟩

/-- C6 amended: no configuration validation exists: for every duration and
every divider value — in particular whenever the divisor or the duration is
nonpositive — planning fails with TypeError raised by line 101's floor
division of the float duration by the unconverted SEGMENT_DIVIDER
environment string, not with an InvalidConfiguration error. -/
theorem no_validation_observed :
    ∀ (d : ℚ) (v : PyEnvValue),
      split_audio_into_segments d v = .error PyErr.typeError :=
  fun _ _ => rfl

/-- C7: for every non-negative start time in seconds, the label built at
`main.py` line 112 is the seconds truncated to an integer and rendered as
zero-padded HH:MM:SS; in particular `start = 3661.0` yields `"01:01:01"`. -/
theorem start_label_truncated_hms :
    (∀ t : ℚ, 0 ≤ t → start_time_str t = secondsToHMS (⌊t⌋.toNat)) ∧
    start_time_str 3661 = "01:01:01" := by
  constructor
  · intro t ht
    have hz : (0 : ℤ) ≤ ⌊t⌋ := Int.floor_nonneg.mpr ht
    have hs : ((⌊t⌋.toNat : ℕ) : ℤ) = ⌊t⌋ := Int.toNat_of_nonneg hz
    rw [start_time_str, secondsToHMS]
    rw [show (3600 : ℚ) = ((3600 : ℕ) : ℚ) by norm_cast,
        show (60 : ℚ) = ((60 : ℕ) : ℚ) by norm_cast]
    have hH : pyInt (fdiv t ((3600 : ℕ) : ℚ)) = ((⌊t⌋.toNat / 3600 : ℕ) : ℤ) := by
      rw [fdiv_eq_ediv t 3600 (by norm_num), pyInt_intCast]
      rw [Int.natCast_div, hs]
    have hM : pyInt (fdiv (pyMod t ((3600 : ℕ) : ℚ)) ((60 : ℕ) : ℚ))
        = ((⌊t⌋.toNat % 3600 / 60 : ℕ) : ℤ) := by
      rw [fdiv_eq_ediv (pyMod t ((3600 : ℕ) : ℚ)) 60 (by norm_num), pyInt_intCast]
      rw [pyMod_floor t 3600 (by norm_num)]
      rw [Int.natCast_div, Int.natCast_mod, hs]
    have hS : pyInt (pyMod t ((60 : ℕ) : ℚ)) = ((⌊t⌋.toNat % 60 : ℕ) : ℤ) := by
      rw [pyInt_pyMod t 60 (by norm_num)]
      rw [Int.natCast_mod, hs]
    rw [hH, hM, hS]
  · norm_num [start_time_str, pyInt, fdiv, pyMod, pad2]
    rfl

/-- C7 witness: the general statement applied at `t = 3661`. -/
theorem start_label_truncated_hms_witness :
    (0 : ℚ) ≤ 3661 ∧ start_time_str 3661 = secondsToHMS (⌊(3661 : ℚ)⌋.toNat) :=
  ⟨by norm_num, start_label_truncated_hms.1 3661 (by norm_num)⟩

/-! ## The gather fan-in -/

lemma fillSlots_not_mem {α : Type} (results : List α) :
    ∀ (order : List ℕ) (s : ℕ → Option α) (j : ℕ), j ∉ order →
      fillSlots results order s j = s j := by
  intro order
  induction order with
  | nil =>
    intro s j _
    rfl
  | cons i rest ih =>
    intro s j hj
    have hjr : j ∉ rest := fun h => hj (List.mem_cons_of_mem i h)
    have hji : j ≠ i := fun h => hj (h ▸ List.mem_cons_self i rest)
    simp only [fillSlots]
    rw [ih _ j hjr]
    simp [hji]

lemma fillSlots_mem {α : Type} (results : List α) :
    ∀ (order : List ℕ) (s : ℕ → Option α) (j : ℕ), j ∈ order →
      fillSlots results order s j = results[j]? := by
  intro order
  induction order with
  | nil =>
    intro s j hj
    exact absurd hj (List.not_mem_nil j)
  | cons i rest ih =>
    intro s j hj
    by_cases hjr : j ∈ rest
    · simp only [fillSlots]
      exact ih _ j hjr
    · have hji : j = i := by
        rcases List.mem_cons.mp hj with h | h
        · exact h
        · exact absurd h hjr
      simp only [fillSlots]
      rw [fillSlots_not_mem results rest _ j hjr]
      simp [hji]

lemma allSome_map_some {α : Type} : ∀ l : List α, allSome (l.map some) = some l := by
  intro l
  induction l with
  | nil => rfl
  | cons a rest ih => simp [allSome, ih]

lemma gatherModel_eq_some {α : Type} (results : List α) (order : List ℕ)
    (hcov : ∀ i, i < results.length → i ∈ order) :
    gatherModel results order = some results := by
  rw [gatherModel]
  have hmap : (List.range results.length).map (fillSlots results order (fun _ => none))
      = results.map some := by
    apply List.ext_getElem
    · simp
    · intro k h1 h2
      have hk : k < results.length := by simpa using h1
      simp only [List.getElem_map, List.getElem_range]
      rw [fillSlots_mem results order _ k (hcov k hk)]
      exact List.getElem?_eq_getElem hk
  rw [hmap, allSome_map_some]

lemma firstErrIn_mem (results : List (Except TranscriptionError TranscriptFragment)) :
    ∀ (order : List ℕ) (i : ℕ) (e : TranscriptionError),
      i ∈ order → results[i]? = some (Except.error e) →
      ∃ e2, firstErrIn results order = some e2 := by
  intro order
  induction order with
  | nil =>
    intro i e hi _
    exact absurd hi (List.not_mem_nil i)
  | cons a rest ih =>
    intro i e hi he
    by_cases hai : i = a
    · subst hai
      exact ⟨e, by simp only [firstErrIn, he]⟩
    · have hir : i ∈ rest := by
        rcases List.mem_cons.mp hi with h | h
        · exact absurd h hai
        · exact h
      obtain ⟨e2, he2⟩ := ih i e hir he
      cases hra : results[a]? with
      | none =>
        refine ⟨e2, ?_⟩
        simp only [firstErrIn, hra]
        exact he2
      | some ra =>
        cases ra with
        | error e3 => exact ⟨e3, by simp only [firstErrIn, hra]⟩
        | ok v =>
          refine ⟨e2, ?_⟩
          simp only [firstErrIn, hra]
          exact he2

/-- C1: fanning out one task per segment, in segment order, and gathering,
the output is exactly the per-segment results in their original segment
order, for every completion order that covers all tasks; two completion
orders yield identical output, so completion order never affects output
order. -/
theorem gather_preserves_segment_order
    (segs : List SegmentWindow) (w : SegmentWindow → TranscriptFragment)
    (order order2 : List ℕ)
    (hcov : ∀ i, i < (segs.map w).length → i ∈ order)
    (hcov2 : ∀ i, i < (segs.map w).length → i ∈ order2) :
    gatherModel (segs.map w) order = some (segs.map w) ∧
    gatherModel (segs.map w) order = gatherModel (segs.map w) order2 := by
  have h1 := gatherModel_eq_some (segs.map w) order hcov
  have h2 := gatherModel_eq_some (segs.map w) order2 hcov2
  exact ⟨h1, by rw [h1, h2]⟩

/-- C1 witness: three segments whose workers complete in reverse index
order; the gathered output is still in segment order and agrees with the
in-order completion. -/
theorem gather_preserves_segment_order_witness :
    gatherModel (([⟨1, 0, 62, "00:00:00"⟩, ⟨2, 62, 124, "00:01:02"⟩,
        ⟨3, 124, 125, "00:02:04"⟩] : List SegmentWindow).map
        (fun s => TranscriptFragment.mk s.label [s.label])) [2, 1, 0]
      = some (([⟨1, 0, 62, "00:00:00"⟩, ⟨2, 62, 124, "00:01:02"⟩,
        ⟨3, 124, 125, "00:02:04"⟩] : List SegmentWindow).map
        (fun s => TranscriptFragment.mk s.label [s.label])) ∧
    gatherModel (([⟨1, 0, 62, "00:00:00"⟩, ⟨2, 62, 124, "00:01:02"⟩,
        ⟨3, 124, 125, "00:02:04"⟩] : List SegmentWindow).map
        (fun s => TranscriptFragment.mk s.label [s.label])) [2, 1, 0]
      = gatherModel (([⟨1, 0, 62, "00:00:00"⟩, ⟨2, 62, 124, "00:01:02"⟩,
        ⟨3, 124, 125, "00:02:04"⟩] : List SegmentWindow).map
        (fun s => TranscriptFragment.mk s.label [s.label])) [0, 1, 2] :=
  gather_preserves_segment_order _ _ [2, 1, 0] [0, 1, 2]
    (by intro i hi; simp at hi; interval_cases i <;> simp)
    (by intro i hi; simp at hi; interval_cases i <;> simp)

/-- C2 counterexample (the claim as stated fails on the code): two runs
whose sets of failed segment indices differ produce identical coordinator
outcomes, so the outcome cannot report which segment indices failed and
which succeeded; and in the 3-segment scenario where only segment 2 times
out, the run outcome is the bare timeout exception of that worker, not an
aggregate PartialTranscriptionFailure report. -/
theorem gather_reports_no_indices :
    (gatherExc [Except.error TranscriptionError.timeout,
        Except.ok ⟨"00:01:02", ["b"]⟩, Except.ok ⟨"00:02:04", ["c"]⟩] [0, 1, 2]
      = gatherExc [Except.error TranscriptionError.timeout,
        Except.error TranscriptionError.timeout,
        Except.ok ⟨"00:02:04", ["c"]⟩] [0, 1, 2]) ∧
    failedIndices [Except.error TranscriptionError.timeout,
        Except.ok ⟨"00:01:02", ["b"]⟩, Except.ok ⟨"00:02:04", ["c"]⟩]
      ≠ failedIndices [Except.error TranscriptionError.timeout,
        Except.error TranscriptionError.timeout, Except.ok ⟨"00:02:04", ["c"]⟩] ∧
    gatherExc [Except.ok ⟨"00:00:00", ["a"]⟩,
        Except.error TranscriptionError.timeout,
        Except.ok ⟨"00:02:04", ["c"]⟩] [2, 0, 1]
      = .error TranscriptionError.timeout :=
  ⟨rfl, by decide, rfl⟩

/-- C2 amended: when any worker whose index appears in the completion order
fails, the gather re-raises a single worker exception — the first failure
in completion order — and returns no transcript list at all; failures are
not collected and failed/succeeded segment indices are not reported. -/
theorem gather_first_error_only
    (results : List (Except TranscriptionError TranscriptFragment))
    (order : List ℕ) (i : ℕ) (e : TranscriptionError)
    (hi : i ∈ order) (he : results[i]? = some (Except.error e)) :
    ∃ e2, gatherExc results order = .error e2 ∧
      firstErrIn results order = some e2 := by
  obtain ⟨e2, he2⟩ := firstErrIn_mem results order i e hi he
  exact ⟨e2, by simp only [gatherExc, he2], he2⟩

/-- C2 amended witness: three workers with only the second one failing. -/
theorem gather_first_error_only_witness :
    ∃ e2, gatherExc [Except.ok ⟨"00:00:00", ["a"]⟩,
        Except.error TranscriptionError.timeout,
        Except.ok ⟨"00:02:04", ["c"]⟩] [2, 0, 1] = .error e2 ∧
      firstErrIn [Except.ok ⟨"00:00:00", ["a"]⟩,
        Except.error TranscriptionError.timeout,
        Except.ok ⟨"00:02:04", ["c"]⟩] [2, 0, 1] = some e2 :=
  gather_first_error_only _ [2, 0, 1] 1 TranscriptionError.timeout
    (by decide) (by decide)

/-- C8: the assembled transcript is the in-order concatenation of each
fragment's phrases, every phrase paired with its fragment's start label;
the total line count is the sum of the phrase counts; and the two-fragment
example yields exactly the three expected lines. -/
theorem assembler_flatten_pairs :
    (∀ frags : List TranscriptFragment,
      printLoop frags = assembleSpec frags ∧
      (printLoop frags).length = (frags.map (fun f => f.phrases.length)).sum) ∧
    printLoop [⟨"00:00:00", ["a", "b"]⟩, ⟨"00:01:02", ["c"]⟩]
      = [("00:00:00", "a"), ("00:00:00", "b"), ("00:01:02", "c")] := by
  constructor
  · intro frags
    induction frags with
    | nil => exact ⟨rfl, rfl⟩
    | cons f rest ih =>
      constructor
      · have h := ih.1
        simp only [printLoop, assembleSpec, List.flatMap_cons] at h ⊢
        rw [h]
      · simp only [printLoop, List.length_append, List.length_map, List.map_cons,
          List.sum_cons]
        rw [ih.2]
  · rfl

/-! ## The cut-and-upload stage -/

lemma segmentUploadRun_clean (cutOk uploadOk : ℕ → Bool) :
    ∀ (pre tail : List SegmentWindow),
      (∀ u ∈ pre, cutOk u.index = true ∧ uploadOk u.index = true) →
      segmentUploadRun (pre ++ tail) cutOk uploadOk
        = (pre.map (fun u => u.index) ++ (segmentUploadRun tail cutOk uploadOk).1,
           (segmentUploadRun tail cutOk uploadOk).2.map (fun l => pre ++ l)) := by
  intro pre
  induction pre with
  | nil =>
    intro tail _
    simp only [List.nil_append, List.map_nil]
    cases hout : (segmentUploadRun tail cutOk uploadOk).2 <;>
      simp [Except.map, ← hout]
  | cons u rest ih =>
    intro tail hpre
    have hu := hpre u (List.mem_cons_self u rest)
    have hrest : ∀ v ∈ rest, cutOk v.index = true ∧ uploadOk v.index = true :=
      fun v hv => hpre v (List.mem_cons_of_mem u hv)
    have hih := ih tail hrest
    simp only [List.cons_append, segmentUploadRun, hu.1, hu.2, if_true,
      List.append_eq, hih]
    simp only [Prod.mk.injEq]
    refine ⟨?_, ?_⟩
    · simp
    · cases hout : (segmentUploadRun tail cutOk uploadOk).2 <;> simp [Except.map]

lemma segmentUploadRun_fail_head (w : SegmentWindow) (post : List SegmentWindow)
    (cutOk uploadOk : ℕ → Bool)
    (hw : cutOk w.index = false ∨ uploadOk w.index = false) :
    ∃ e, segmentUploadRun (w :: post) cutOk uploadOk = ([w.index], .error e) := by
  cases hc : cutOk w.index with
  | false =>
    refine ⟨.processError, ?_⟩
    simp [segmentUploadRun, hc]
  | true =>
    have hup : uploadOk w.index = false := by
      rcases hw with h | h
      · simp [hc] at h
      · exact h
    refine ⟨.exitOne, ?_⟩
    simp [segmentUploadRun, hc, hup]

/-- C9: if cutting or uploading some segment fails (all earlier segments
having succeeded), the run aborts right there: exactly the segments up to
and including the failing one are attempted, the transcription stage is
never reached, and the whole run ends in an error — the failing segment is
never skipped. -/
theorem upload_failure_aborts_run
    (pre : List SegmentWindow) (w : SegmentWindow) (post : List SegmentWindow)
    (cutOk uploadOk : ℕ → Bool)
    (worker : SegmentWindow → Except TranscriptionError TranscriptFragment)
    (order : List ℕ)
    (hpre : ∀ u ∈ pre, cutOk u.index = true ∧ uploadOk u.index = true)
    (hw : cutOk w.index = false ∨ uploadOk w.index = false) :
    ∃ e : RunAbort,
      segmentUploadRun (pre ++ w :: post) cutOk uploadOk
        = (pre.map (fun u => u.index) ++ [w.index], .error e) ∧
      fullRun (pre ++ w :: post) cutOk uploadOk worker order
        = (pre.map (fun u => u.index) ++ [w.index], false,
           .error (.abort e)) := by
  obtain ⟨e, hhead⟩ := segmentUploadRun_fail_head w post cutOk uploadOk hw
  have hclean := segmentUploadRun_clean cutOk uploadOk pre (w :: post) hpre
  rw [hhead] at hclean
  simp only [Except.map] at hclean
  refine ⟨e, hclean, ?_⟩
  simp only [fullRun, hclean]

/-- C9 witness: three planned windows where the upload of segment 2 fails:
segments 1 and 2 are attempted, segment 3 is not, no transcription starts,
and the run ends in the upload abort. -/
theorem upload_failure_aborts_run_witness :
    ∃ e : RunAbort,
      segmentUploadRun [⟨1, 0, 62, "00:00:00"⟩, ⟨2, 62, 124, "00:01:02"⟩,
          ⟨3, 124, 125, "00:02:04"⟩] (fun _ => true) (fun i => !(i == 2))
        = ([1, 2], .error e) ∧
      fullRun [⟨1, 0, 62, "00:00:00"⟩, ⟨2, 62, 124, "00:01:02"⟩,
          ⟨3, 124, 125, "00:02:04"⟩] (fun _ => true) (fun i => !(i == 2))
          (fun s => .ok ⟨s.label, []⟩) [0, 1, 2]
        = ([1, 2], false, .error (.abort e)) := by
  have h := upload_failure_aborts_run [⟨1, 0, 62, "00:00:00"⟩]
    ⟨2, 62, 124, "00:01:02"⟩ [⟨3, 124, 125, "00:02:04"⟩]
    (fun _ => true) (fun i => !(i == 2)) (fun s => .ok ⟨s.label, []⟩) [0, 1, 2]
    (by simp) (by simp)
  simpa using h

/-- C10: every recognition request carries language code "fr-FR", the
LINEAR16 encoding, and the fixed 3600-second per-operation timeout,
whatever the uri and start label are; the start label passes through
unchanged. -/
theorem fixed_recognition_parameters :
    ∀ (gcs_uri start_time : String),
      (run_async_transcribe gcs_uri start_time).1.config.language_code = "fr-FR" ∧
      (run_async_transcribe gcs_uri start_time).1.config.encoding
        = AudioEncoding.LINEAR16 ∧
      (run_async_transcribe gcs_uri start_time).1.timeout = 3600 ∧
      (run_async_transcribe gcs_uri start_time).2 = start_time :=
  fun _ _ => ⟨rfl, rfl, rfl, rfl⟩

end TranscriptVideo
